import Mathlib

/-!
Verification of the infrared remote-control analyzer
(vite-react-rust-wasm-project).

The development shallowly embeds the TypeScript presentation layer
(`IrDecordedFrame`, `IrSignal`, `IrControlCode`, `SerialConnectionEffect`,
`App`) and, where the Rust wasm pipeline is only visible through its
interface, models the missing stages from the written specification.
JavaScript numbers that only ever hold non-negative integers (microsecond
durations, bits, sequence numbers) are embedded as `Nat`; `Uint8Array`
values holding bits are embedded as `List Nat`; thrown exceptions are
embedded as `Except`.
-/

/-- Source `types.ts`: `MarkAndSpaceMicros \x7b mark: number, space: number \x7d`,
a mark/space pair of microsecond durations. -/
structure MarkAndSpaceMicros where
  mark : Nat
  space : Nat
  deriving DecidableEq, Repr

/-- Source `types.ts`: `InfraredRemoteFrame = MarkAndSpaceMicros[]`. -/
abbrev InfraredRemoteFrame : Type := List MarkAndSpaceMicros

/-- Source `types.ts`: the older-generation decoded frame
`DecordedInfraredRemoteFrame`, a tagged union of a raw bitstream per
protocol or the raw pairs for an unrecognized frame. -/
inductive DecordedInfraredRemoteFrame where
  | Aeha (bitstream : List Nat)
  | Nec (bitstream : List Nat)
  | Sirc (bitstream : List Nat)
  | Unknown (frame : List MarkAndSpaceMicros)
  deriving DecidableEq, Repr

/-- Source `types.ts`: the newer-generation decoded frame
`InfraredRemoteDecordedFrame` with protocol-structured fields. -/
inductive InfraredRemoteDecordedFrame where
  | Aeha (octets : List (List Nat)) (stop : Nat)
  | Nec (custom0 custom1 data0 data1 : List Nat) (stop : Nat)
  | Sirc12 (command address : List Nat)
  | Sirc15 (command address : List Nat)
  | Sirc20 (command address extended : List Nat)
  | Unknown (frame : List MarkAndSpaceMicros)
  deriving DecidableEq, Repr

/-- JavaScript `Array.prototype.slice(s, e)` on an index range with both
endpoints given (non-negative): the elements at indices `[s, min e length)`. -/
def jsSlice (l : List Nat) (s e : Nat) : List Nat := (l.take e).drop s

/-- Source `IrDecordedFrame.tsx` (older generation), `to_octets`: group the
bitstream into chunks `slice(i, i+8)` for `i = 0, 8, 16, ...`. -/
def to_octets (bitstream : List Nat) : List (List Nat) :=
  if hb : bitstream = [] then []
  else bitstream.take 8 :: to_octets (bitstream.drop 8)
  termination_by bitstream.length
  decreasing_by
    simp only [List.length_drop]
    have hpos : 0 < bitstream.length := List.length_pos.mpr hb
    omega

/-- JavaScript `Number.prototype.toString(16)` for a non-negative integer:
lowercase hexadecimal digits. -/
def js_to_string_16 (n : Nat) : String := ⟨Nat.toDigits 16 n⟩

/-- JavaScript `String.prototype.padStart(2, zero)`: left-pad with zero
characters up to length 2. -/
def js_pad_start_2 (s : String) : String :=
  if s.length < 2 then String.mk (List.replicate (2 - s.length) '0') ++ s else s

/-- Source `IrDecordedFrame.tsx`, `to_hex_string`: fold the (possibly
reversed) bit array into a number with `acc * 2 + x` and render it as a
zero-padded lowercase hexadecimal string.  This is the pure value computed
by the source function. -/
def to_hex_string (msb_first : Bool) (octets : List Nat) : String :=
  let xs : List Nat := if msb_first then octets else octets.reverse
  js_pad_start_2 (js_to_string_16 (xs.foldl (fun acc x => 2 * acc + x) 0))

/-- A heap of JavaScript arrays, for tracking in-place mutation: a reference
is an index into the heap. -/
abbrev ArrHeap : Type := List (List Nat)

/-- Read the array a reference designates (an out-of-range reference reads
as the empty array). -/
def readArr (h : ArrHeap) (r : Nat) : List Nat := h.getD r []

/-- JavaScript `octets.slice()`: allocate a fresh copy of the array and
return a reference to it. -/
def slice_copy (h : ArrHeap) (r : Nat) : ArrHeap × Nat :=
  (h ++ [readArr h r], h.length)

/-- JavaScript `Array.prototype.reverse()`: reverse the referenced array in
place. -/
def reverse_in_place (h : ArrHeap) (r : Nat) : ArrHeap :=
  h.set r (readArr h r).reverse

/-- Source `IrDecordedFrame.tsx`, `to_hex_string`, with the mutation made
explicit: `let xs = msb_first ? octets : octets.slice().reverse()` either
aliases the argument (and performs no mutation on it) or reverses a fresh
copy.  Returns the post-call heap and the rendered string. -/
def to_hex_string_heap (msb_first : Bool) (h : ArrHeap) (octets : Nat) :
    ArrHeap × String :=
  if msb_first then
    (h, js_pad_start_2 (js_to_string_16
      ((readArr h octets).foldl (fun acc x => 2 * acc + x) 0)))
  else
    let hx := slice_copy h octets
    let h2 := reverse_in_place hx.1 hx.2
    (h2, js_pad_start_2 (js_to_string_16
      ((readArr h2 hx.2).foldl (fun acc x => 2 * acc + x) 0)))

/-- Source `IrDecordedFrame.tsx`: one labelled bit-field of a decoded frame
view. -/
structure IrFrameItem where
  item_label : String
  value : List Nat
  deriving DecidableEq, Repr

/-- Source `IrDecordedFrame.tsx`: the view `IrFrameValue` of a decoded
frame. -/
structure IrFrameValue where
  frame_label : String
  items : List IrFrameItem
  deriving DecidableEq, Repr

/-- Source `IrDecordedFrame.tsx` (older generation), `ir_frame_value`: turn
a decoded frame into its labelled bit-field view.  AEHA octets are labelled
by bit offset; NEC is split into four byte slices; SIRC is split at bit 5
into command and address. -/
def ir_frame_value : DecordedInfraredRemoteFrame → IrFrameValue
  | .Aeha bitstream =>
      { frame_label := "AEHA",
        items := (to_octets bitstream).enum.map
          (fun p => { item_label := "offset " ++ Nat.repr (8 * p.1), value := p.2 }) }
  | .Nec bitstream =>
      { frame_label := "NEC",
        items := [
          { item_label := "Address", value := jsSlice bitstream 0 8 },
          { item_label := "(Logical Inverse) Address", value := jsSlice bitstream 8 16 },
          { item_label := "Command", value := jsSlice bitstream 16 24 },
          { item_label := "(Logical Inverse) Command", value := jsSlice bitstream 24 32 }] }
  | .Sirc bitstream =>
      { frame_label := "SIRC",
        items := [
          { item_label := "command", value := jsSlice bitstream 0 5 },
          { item_label := "address", value := bitstream.drop 5 }] }
  | .Unknown _ =>
      { frame_label := "UNKNOWN", items := [] }

/-! Helper lemmas about `to_octets`, `jsSlice` and the array heap. -/

theorem to_octets_nil : to_octets [] = [] := by
  rw [to_octets]
  simp

theorem to_octets_cons (bs : List Nat) (h : bs ≠ []) :
    to_octets bs = bs.take 8 :: to_octets (bs.drop 8) := by
  rw [to_octets]
  simp [h]

theorem to_octets_flatten (bs : List Nat) : (to_octets bs).flatten = bs := by
  induction bs using to_octets.induct with
  | case1 => simp [to_octets_nil]
  | case2 bs hb ih =>
      rw [to_octets_cons bs hb, List.flatten_cons, ih, List.take_append_drop]

theorem to_octets_full_octet :
    ∀ (i : Nat) (bs : List Nat), 8 * (i + 1) ≤ bs.length →
      ((to_octets bs).getD i []).length = 8 := by
  intro i
  induction i with
  | zero =>
      intro bs h
      have hb : bs ≠ [] := by
        intro e
        subst e
        simp at h
      rw [to_octets_cons bs hb]
      simp only [List.getD_cons_zero, List.length_take]
      omega
  | succ i ih =>
      intro bs h
      have hb : bs ≠ [] := by
        intro e
        subst e
        simp at h
      rw [to_octets_cons bs hb]
      simp only [List.getD_cons_succ]
      apply ih
      simp only [List.length_drop]
      omega

theorem to_octets_le_eight (bs : List Nat) :
    ∀ o ∈ to_octets bs, o.length ≤ 8 := by
  induction bs using to_octets.induct with
  | case1 => simp [to_octets_nil]
  | case2 bs hb ih =>
      rw [to_octets_cons bs hb]
      intro o ho
      rcases List.mem_cons.mp ho with h1 | h2
      · subst h1
        simp [List.length_take]
      · exact ih o h2

theorem jsSlice_len (l : List Nat) (s e : Nat) (he : e ≤ l.length) :
    (jsSlice l s e).length = e - s := by
  simp only [jsSlice, List.length_drop, List.length_take]
  omega

theorem take_chain (bs : List Nat) (a b : Nat) (hab : a ≤ b) :
    bs.take a ++ (bs.take b).drop a = bs.take b := by
  have h1 : (bs.take b).take a = bs.take a := by
    rw [List.take_take]
    simp [Nat.min_eq_left hab]
  calc bs.take a ++ (bs.take b).drop a
      = (bs.take b).take a ++ (bs.take b).drop a := by rw [h1]
    _ = bs.take b := List.take_append_drop a (bs.take b)

theorem set_append_length (h : ArrHeap) (a b : List Nat) :
    (h ++ [a]).set h.length b = h ++ [b] := by
  induction h with
  | nil => rfl
  | cons x t ih =>
      show x :: ((t ++ [a]).set t.length b) = x :: (t ++ [b])
      rw [ih]

/-- C3: for every Aeha bitstream, `to_octets` groups the bits into octets in
arrival order: concatenating the returned octets yields exactly the original
bitstream, every octet wholly inside the bitstream (hence every octet except
possibly the last) has length exactly 8, and no octet exceeds 8 bits.  The
handling of a bit count that is not a multiple of 8 is deterministic because
`to_octets` is a function of the bitstream alone (the trailing partial
octet is returned unpadded). -/
theorem to_octets_groups_in_arrival_order (bs : List Nat) :
    (to_octets bs).flatten = bs ∧
    (∀ i, 8 * (i + 1) ≤ bs.length → ((to_octets bs).getD i []).length = 8) ∧
    (∀ o ∈ to_octets bs, o.length ≤ 8) :=
  ⟨to_octets_flatten bs, fun i h => to_octets_full_octet i bs h, to_octets_le_eight bs⟩

/-- Witness for C3 at a concrete 12-bit bitstream: the grouping flattens back
to the input and the first octet is full. -/
theorem to_octets_groups_in_arrival_order_witness :
    (to_octets [0, 1, 1, 0, 1, 0, 0, 1, 1, 1, 0, 1]).flatten =
        [0, 1, 1, 0, 1, 0, 0, 1, 1, 1, 0, 1] ∧
    ((to_octets [0, 1, 1, 0, 1, 0, 0, 1, 1, 1, 0, 1]).getD 0 []).length = 8 :=
  ⟨(to_octets_groups_in_arrival_order _).1,
   (to_octets_groups_in_arrival_order [0, 1, 1, 0, 1, 0, 0, 1, 1, 1, 0, 1]).2.1 0 (by decide)⟩

/-- C2: for every Nec-tagged bitstream of at least 32 bits, the decoded view
consists of the four labelled 8-bit fields at bit offsets `[0,8)`, `[8,16)`,
`[16,24)`, `[24,32)`, and the concatenation of the four field values equals
the first 32 bits of the bitstream. -/
theorem nec_fields_partition_first_32_bits (bs : List Nat) (h : 32 ≤ bs.length) :
    ((ir_frame_value (.Nec bs)).items.map IrFrameItem.item_label =
        ["Address", "(Logical Inverse) Address", "Command", "(Logical Inverse) Command"]) ∧
    ((ir_frame_value (.Nec bs)).items.map IrFrameItem.value =
        [jsSlice bs 0 8, jsSlice bs 8 16, jsSlice bs 16 24, jsSlice bs 24 32]) ∧
    (∀ v ∈ (ir_frame_value (.Nec bs)).items.map IrFrameItem.value, v.length = 8) ∧
    (jsSlice bs 0 8 ++ jsSlice bs 8 16 ++ jsSlice bs 16 24 ++ jsSlice bs 24 32 =
        bs.take 32) := by
  refine ⟨rfl, rfl, ?_, ?_⟩
  · intro v hv
    simp only [ir_frame_value, List.map_cons, List.map_nil, List.mem_cons,
      List.not_mem_nil, or_false] at hv
    rcases hv with h1 | h1 | h1 | h1 <;> subst h1 <;> (rw [jsSlice_len] <;> omega)
  · have h0 : jsSlice bs 0 8 = bs.take 8 := rfl
    have k16 : bs.take 8 ++ jsSlice bs 8 16 = bs.take 16 := take_chain bs 8 16 (by omega)
    have k24 : bs.take 16 ++ jsSlice bs 16 24 = bs.take 24 := take_chain bs 16 24 (by omega)
    have k32 : bs.take 24 ++ jsSlice bs 24 32 = bs.take 32 := take_chain bs 24 32 (by omega)
    calc jsSlice bs 0 8 ++ jsSlice bs 8 16 ++ jsSlice bs 16 24 ++ jsSlice bs 24 32
        = ((bs.take 8 ++ jsSlice bs 8 16) ++ jsSlice bs 16 24) ++ jsSlice bs 24 32 := by
          rw [h0]
      _ = (bs.take 16 ++ jsSlice bs 16 24) ++ jsSlice bs 24 32 := by rw [k16]
      _ = bs.take 24 ++ jsSlice bs 24 32 := by rw [k24]
      _ = bs.take 32 := k32

/-- Witness for C2 at a concrete 32-bit bitstream. -/
theorem nec_fields_partition_first_32_bits_witness :
    32 ≤ (List.replicate 32 1 : List Nat).length ∧
    ((ir_frame_value (.Nec (List.replicate 32 1))).items.map IrFrameItem.value =
        [jsSlice (List.replicate 32 1) 0 8, jsSlice (List.replicate 32 1) 8 16,
         jsSlice (List.replicate 32 1) 16 24, jsSlice (List.replicate 32 1) 24 32]) :=
  ⟨by decide, (nec_fields_partition_first_32_bits (List.replicate 32 1) (by decide)).2.1⟩

/-- C1 (code bug): evaluating `ir_frame_value` at a concrete 12-bit Sirc
bitstream shows that the view labels the first five bits as `command` and
the remaining seven bits as `address`, whereas the specified layout
(`Sirc12` carries a 7-bit command followed by a 5-bit address) requires the
first seven bits as the command and the following five as the address. -/
theorem sirc_view_splits_command_at_bit_five :
    (ir_frame_value (.Sirc [1, 0, 1, 1, 0, 1, 1, 0, 0, 1, 0, 1])).items =
      [⟨"command", [1, 0, 1, 1, 0]⟩, ⟨"address", [1, 1, 0, 0, 1, 0, 1]⟩] ∧
    ((ir_frame_value (.Sirc [1, 0, 1, 1, 0, 1, 1, 0, 0, 1, 0, 1])).items.map
        (fun v => v.value.length) = [5, 7]) :=
  ⟨rfl, rfl⟩

/-- C7: `to_hex_string` renders the referenced bit array without modifying
it: reading the argument array after the call yields exactly the contents
and order it had before the call (the LSB-first display reverses a fresh
copy allocated by `slice()`, never the argument), and the returned string
is the pure hexadecimal rendering of the argument. -/
theorem to_hex_string_heap_preserves_argument (msb_first : Bool) (h : ArrHeap)
    (octets : Nat) :
    readArr (to_hex_string_heap msb_first h octets).1 octets = readArr h octets ∧
    (to_hex_string_heap msb_first h octets).2 = to_hex_string msb_first (readArr h octets) := by
  cases msb_first with
  | true => exact ⟨rfl, rfl⟩
  | false =>
      have hread : readArr (h ++ [(readArr h octets).reverse]) h.length =
          (readArr h octets).reverse := by
        simp only [readArr]
        rw [List.getD_append_right _ _ _ _ (le_refl h.length)]
        simp
      have hcopy : readArr (h ++ [readArr h octets]) h.length = readArr h octets := by
        simp only [readArr]
        rw [List.getD_append_right _ _ _ _ (le_refl h.length)]
        simp
      have key : to_hex_string_heap false h octets =
          (h ++ [(readArr h octets).reverse],
           js_pad_start_2 (js_to_string_16
             (((readArr h octets).reverse).foldl (fun acc x => 2 * acc + x) 0))) := by
        simp only [to_hex_string_heap, slice_copy, reverse_in_place, Bool.false_eq_true,
          if_false]
        rw [hcopy, set_append_length, hread]
      rw [key]
      constructor
      · by_cases hlt : octets < h.length
        · simp only [readArr]
          exact List.getD_append _ _ _ _ hlt
        · have hle : h.length ≤ octets := Nat.le_of_not_lt hlt
          have hz : readArr h octets = [] := by
            simp only [readArr]
            exact List.getD_eq_default _ _ hle
          rw [hz]
          simp only [readArr]
          rw [List.getD_append_right _ _ _ _ hle]
          cases hd : octets - h.length with
          | zero => rfl
          | succ k => rfl
      · rfl

/-- Source `IrSignal.tsx`: a chart point `DatumForGraph \x7b time, bit \x7d`. -/
structure DatumForGraph where
  time : Nat
  bit : Nat
  deriving DecidableEq, Repr

/-- Source `IrSignal.tsx`: a table row `DatumForList` for the mark-and-space
listing. -/
structure DatumForList where
  key : Nat
  seq_num : Nat
  start_time : Nat
  kinds : String
  duration : Nat
  deriving DecidableEq, Repr

/-- Placeholder row used as the default of `List.getD` lookups. -/
def dummyRow : DatumForList := ⟨0, 0, 0, "", 0⟩

/-- Placeholder chart point used as the default of `List.getD` lookups. -/
def dummyPoint : DatumForGraph := ⟨0, 0⟩

/-- The durations of the input pairs interleaved in arrival order:
mark, space, mark, space, ... -/
def durations (input : List MarkAndSpaceMicros) : List Nat :=
  input.bind (fun p => [p.mark, p.space])

/-- Source `IrSignal.tsx`, `convert_for_list`: the `forEach` body, carrying
the running `start` time and `sequencenumber` through the loop. -/
def convert_for_list_loop (start seq : Nat) :
    List MarkAndSpaceMicros → List DatumForList
  | [] => []
  | item :: rest =>
      ⟨seq, seq, start, "Mark", item.mark⟩ ::
      ⟨seq + 1, seq + 1, start + item.mark, "Space", item.space⟩ ::
      convert_for_list_loop (start + item.mark + item.space) (seq + 2) rest

/-- Source `IrSignal.tsx`, `convert_for_list`: two rows per pair, sequence
numbers from 1, start times accumulated from 0. -/
def convert_for_list (input : List MarkAndSpaceMicros) : List DatumForList :=
  convert_for_list_loop 0 1 input

/-- Source `IrSignal.tsx`, `conv_ir_control_signal`: the `forEach` body,
carrying the running `sum` through the loop; one point after each mark and
one after each space. -/
def conv_ir_control_signal_loop (sum : Nat) :
    List MarkAndSpaceMicros → List DatumForGraph
  | [] => []
  | item :: rest =>
      ⟨sum + item.mark, 1⟩ :: ⟨sum + item.mark + item.space, 0⟩ ::
      conv_ir_control_signal_loop (sum + item.mark + item.space) rest

/-- Source `IrSignal.tsx`, `conv_ir_control_signal`: empty input yields no
points; otherwise a leading `\x7b time: 0, bit: 0 \x7d` point followed by the
loop's points. -/
def conv_ir_control_signal (input : List MarkAndSpaceMicros) : List DatumForGraph :=
  if 1 ≤ input.length then ⟨0, 0⟩ :: conv_ir_control_signal_loop 0 input else []

theorem durations_cons (p : MarkAndSpaceMicros) (rest : List MarkAndSpaceMicros) :
    durations (p :: rest) = p.mark :: p.space :: durations rest := rfl

theorem durations_sum (input : List MarkAndSpaceMicros) :
    (durations input).sum = (input.map (fun p => p.mark + p.space)).sum := by
  induction input with
  | nil => rfl
  | cons p rest ih =>
      rw [durations_cons]
      simp [ih]
      omega

theorem durations_length (input : List MarkAndSpaceMicros) :
    (durations input).length = 2 * input.length := by
  induction input with
  | nil => rfl
  | cons p rest ih =>
      rw [durations_cons]
      simp [ih]
      omega

theorem convert_for_list_loop_length (input : List MarkAndSpaceMicros) :
    ∀ start seq, (convert_for_list_loop start seq input).length = 2 * input.length := by
  induction input with
  | nil => intro start seq; rfl
  | cons p rest ih =>
      intro start seq
      simp only [convert_for_list_loop, List.length_cons, ih]
      omega

theorem convert_for_list_loop_getD (input : List MarkAndSpaceMicros) :
    ∀ start seq i, i < 2 * input.length →
      (convert_for_list_loop start seq input).getD i dummyRow =
        ⟨seq + i, seq + i, start + ((durations input).take i).sum,
         if i % 2 = 0 then "Mark" else "Space", (durations input).getD i 0⟩ := by
  induction input with
  | nil =>
      intro start seq i h
      simp at h
  | cons p rest ih =>
      intro start seq i h
      match i with
      | 0 => simp [convert_for_list_loop, durations_cons]
      | 1 => simp [convert_for_list_loop, durations_cons]
      | Nat.succ (Nat.succ i) =>
          have hi : i < 2 * rest.length := by
            simp only [List.length_cons] at h
            omega
          simp only [convert_for_list_loop, List.getD_cons_succ, durations_cons]
          rw [ih (start + p.mark + p.space) (seq + 2) i hi]
          have hpar : (i + 1 + 1) % 2 = i % 2 := by omega
          simp only [List.take_succ_cons, List.sum_cons, List.getD_cons_succ, hpar]
          congr 1 <;> omega

/-- C9: `convert_for_list` returns exactly `2 n` rows for `n` input pairs,
with sequence numbers `1` through `2 n`, kinds alternating `Mark` then
`Space` starting with `Mark`, each row's duration the corresponding
interleaved input duration (so input order is preserved), and each row's
start time the sum of the durations of all earlier rows. -/
theorem convert_for_list_rows (input : List MarkAndSpaceMicros) :
    (convert_for_list input).length = 2 * input.length ∧
    (∀ i, i < 2 * input.length →
      (convert_for_list input).getD i dummyRow =
        ⟨i + 1, i + 1, ((durations input).take i).sum,
         if i % 2 = 0 then "Mark" else "Space", (durations input).getD i 0⟩) := by
  constructor
  · exact convert_for_list_loop_length input 0 1
  · intro i h
    rw [convert_for_list, convert_for_list_loop_getD input 0 1 i h]
    congr 1 <;> omega

/-- Witness for C9 at the concrete input `[⟨5, 7⟩]`: the second row. -/
theorem convert_for_list_rows_witness :
    (convert_for_list [⟨5, 7⟩]).length = 2 * ([⟨5, 7⟩] : List MarkAndSpaceMicros).length ∧
    (convert_for_list [⟨5, 7⟩]).getD 1 dummyRow =
      ⟨1 + 1, 1 + 1, ((durations [⟨5, 7⟩]).take 1).sum,
       if 1 % 2 = 0 then "Mark" else "Space", (durations [⟨5, 7⟩]).getD 1 0⟩ :=
  ⟨(convert_for_list_rows [⟨5, 7⟩]).1, (convert_for_list_rows [⟨5, 7⟩]).2 1 (by decide)⟩

theorem conv_ir_control_signal_loop_length (input : List MarkAndSpaceMicros) :
    ∀ s, (conv_ir_control_signal_loop s input).length = 2 * input.length := by
  induction input with
  | nil => intro s; rfl
  | cons p rest ih =>
      intro s
      simp only [conv_ir_control_signal_loop, List.length_cons, ih]
      omega

theorem conv_ir_control_signal_loop_getD (input : List MarkAndSpaceMicros) :
    ∀ s i, i < 2 * input.length →
      (conv_ir_control_signal_loop s input).getD i dummyPoint =
        ⟨s + ((durations input).take (i + 1)).sum, if i % 2 = 0 then 1 else 0⟩ := by
  induction input with
  | nil =>
      intro s i h
      simp at h
  | cons p rest ih =>
      intro s i h
      match i with
      | 0 => simp [conv_ir_control_signal_loop, durations_cons]
      | 1 =>
          simp [conv_ir_control_signal_loop, durations_cons]
          omega
      | Nat.succ (Nat.succ i) =>
          have hi : i < 2 * rest.length := by
            simp only [List.length_cons] at h
            omega
          simp only [conv_ir_control_signal_loop, List.getD_cons_succ, durations_cons]
          rw [ih (s + p.mark + p.space) i hi]
          have hpar : (i + 1 + 1) % 2 = i % 2 := by omega
          simp only [List.take_succ_cons, List.sum_cons, hpar]
          congr 1
          omega

/-- C8: for a non-empty list of `n` mark/space pairs, `conv_ir_control_signal`
returns exactly `2 n + 1` chart points beginning at `\x7b time: 0, bit: 0 \x7d`;
each later point at position `j` carries bit 1 when `j` is odd (the point
emitted after a mark) and bit 0 when `j` is even (after a space), its time
being the sum of the first `j` interleaved durations; the final point's time
is the total mark+space duration of all pairs.  The empty list yields the
empty list. -/
theorem conv_ir_control_signal_shape (input : List MarkAndSpaceMicros) :
    (input = [] → conv_ir_control_signal input = []) ∧
    (input ≠ [] →
      (conv_ir_control_signal input).length = 2 * input.length + 1 ∧
      (conv_ir_control_signal input).getD 0 dummyPoint = ⟨0, 0⟩ ∧
      (∀ j, 0 < j → j < 2 * input.length + 1 →
        (conv_ir_control_signal input).getD j dummyPoint =
          ⟨((durations input).take j).sum, if j % 2 = 1 then 1 else 0⟩) ∧
      (conv_ir_control_signal input).getD (2 * input.length) dummyPoint =
        ⟨(input.map (fun p => p.mark + p.space)).sum, 0⟩) := by
  constructor
  · intro h
    subst h
    rfl
  · intro h
    have hpos : 0 < input.length := List.length_pos.mpr h
    have hone : 1 ≤ input.length := hpos
    have hopen : conv_ir_control_signal input =
        ⟨0, 0⟩ :: conv_ir_control_signal_loop 0 input := by
      rw [conv_ir_control_signal, if_pos hone]
    have hj : ∀ j, 0 < j → j < 2 * input.length + 1 →
        (conv_ir_control_signal input).getD j dummyPoint =
          ⟨((durations input).take j).sum, if j % 2 = 1 then 1 else 0⟩ := by
      intro j hj0 hjlt
      rw [hopen]
      match j, hj0 with
      | Nat.succ j, _ =>
          simp only [List.getD_cons_succ, Nat.succ_eq_add_one]
          rw [conv_ir_control_signal_loop_getD input 0 j (by omega)]
          congr 1
          · omega
          · by_cases hp : j % 2 = 0
            · rw [if_pos hp, if_pos (by omega)]
            · rw [if_neg hp, if_neg (by omega)]
    refine ⟨?_, ?_, hj, ?_⟩
    · rw [hopen]
      simp [conv_ir_control_signal_loop_length]
    · rw [hopen]
      rfl
    · have := hj (2 * input.length) (by omega) (by omega)
      rw [this]
      have htake : (durations input).take (2 * input.length) = durations input := by
        rw [← durations_length input]
        exact List.take_length (durations input)
      rw [htake, durations_sum, if_neg (by omega : ¬ (2 * input.length) % 2 = 1)]

/-- Witness for C8 at the concrete input `[⟨3, 4⟩, ⟨5, 6⟩]`: the non-empty
hypotheses are discharged and the final point carries the total duration. -/
theorem conv_ir_control_signal_shape_witness :
    (conv_ir_control_signal [⟨3, 4⟩, ⟨5, 6⟩]).length = 2 * 2 + 1 ∧
    (conv_ir_control_signal [⟨3, 4⟩, ⟨5, 6⟩]).getD (2 * 2) dummyPoint =
      ⟨(([⟨3, 4⟩, ⟨5, 6⟩] : List MarkAndSpaceMicros).map (fun p => p.mark + p.space)).sum, 0⟩ :=
  ⟨((conv_ir_control_signal_shape [⟨3, 4⟩, ⟨5, 6⟩]).2 (by decide)).1,
   ((conv_ir_control_signal_shape [⟨3, 4⟩, ⟨5, 6⟩]).2 (by decide)).2.2.2⟩

/-- Source `types.ts`: the remote-control command `InfraredRemoteControlCode`,
a tagged union with exactly six variants. -/
inductive InfraredRemoteControlCode where
  | Sirc (command device : String)
  | PanasonicHvac (temperature : Nat) (mode : String) (switch : Bool)
      (swing fan profile : String) (checksum : Nat)
  | DaikinHvac (temperature : Nat) (mode : String) (on_timer : Bool)
      (on_timer_duration_hour : Nat) (off_timer : Bool)
      (off_timer_duration_hour : Nat) (switch : Bool) (swing fan : String)
      (checksum : Nat)
  | HitachiHvac (temperature : Nat) (mode fan : String) (switch : Bool)
  | MitsubishiElectricHvac (temperature : Nat) (mode1 : String) (switch : Bool)
      (checksum : Nat)
  | Unknown (frames : List InfraredRemoteDecordedFrame)
  deriving DecidableEq, Repr

/-- The runtime tag (the property name tested by the `in` checks) of a
control code value. -/
def tag_of : InfraredRemoteControlCode → String
  | .Sirc _ _ => "Sirc"
  | .PanasonicHvac _ _ _ _ _ _ _ => "PanasonicHvac"
  | .DaikinHvac _ _ _ _ _ _ _ _ _ _ => "DaikinHvac"
  | .HitachiHvac _ _ _ _ => "HitachiHvac"
  | .MitsubishiElectricHvac _ _ _ _ => "MitsubishiElectricHvac"
  | .Unknown _ => "Unknown"

/-- JavaScript `Boolean.prototype.toString()`. -/
def js_bool_to_string (b : Bool) : String := if b then "true" else "false"

/-- Source `IrControlCode.tsx`, `display_ir_code`: the ordered label/value
list rendered for a control code.  The `in`-checks of the source walk the
six tags of the union type in order and the trailing branch throws
`unimplemented`; the union type `InfraredRemoteControlCode` has exactly
those six tags, so the embedded match is total and the error component of
the result is never produced. -/
def display_ir_code : InfraredRemoteControlCode → Except String (List (String × String))
  | .Sirc command device =>
      .ok [("manufacturer", "ソニー"), ("device", device), ("command", command)]
  | .PanasonicHvac temperature mode switch swing fan _profile checksum =>
      .ok [("manufacturer", "パナソニック"), ("device", "エアコン"),
           ("温度", Nat.repr temperature), ("モード", mode),
           ("電源", if switch then "ON" else "OFF"), ("swing", swing),
           ("風量", fan), ("チェックサム", Nat.repr checksum)]
  | .DaikinHvac temperature mode on_timer on_timer_duration_hour off_timer
      off_timer_duration_hour switch swing fan checksum =>
      .ok [("manufacturer", "ダイキン"), ("device", "エアコン"),
           ("温度", Nat.repr temperature), ("モード", mode),
           ("オンタイマー", js_bool_to_string on_timer),
           ("オン継続時間", Nat.repr on_timer_duration_hour),
           ("オフタイマー", js_bool_to_string off_timer),
           ("オフ継続時間", Nat.repr off_timer_duration_hour),
           ("電源", if switch then "ON" else "OFF"), ("swing", swing),
           ("風量", fan), ("チェックサム", Nat.repr checksum)]
  | .HitachiHvac temperature mode fan switch =>
      .ok [("manufacturer", "日立"), ("device", "エアコン"),
           ("温度", Nat.repr temperature), ("モード", mode),
           ("電源", if switch then "ON" else "OFF"), ("風量", fan)]
  | .MitsubishiElectricHvac temperature mode1 switch checksum =>
      .ok [("manufacturer", "三菱電機"), ("device", "エアコン"),
           ("温度", Nat.repr temperature), ("モード1", mode1),
           ("電源", if switch then "ON" else "OFF"),
           ("チェックサム", Nat.repr checksum)]
  | .Unknown _ =>
      .ok [("manufacturer", "不明"), ("device", "不明")]

/-- C4: every control code value carries one of exactly the six expected
tags, and on all of them `display_ir_code` produces a non-empty rendering
without reaching the trailing `unimplemented` throw (no `Except.error` is
ever returned); the `Unknown` tag yields its own distinct rendering (the
fixed 不明/不明 card) rather than an error. -/
theorem display_ir_code_total_and_nonempty (c : InfraredRemoteControlCode) :
    tag_of c ∈ ["Sirc", "PanasonicHvac", "DaikinHvac", "HitachiHvac",
      "MitsubishiElectricHvac", "Unknown"] ∧
    ∃ l, display_ir_code c = Except.ok l ∧ l ≠ [] ∧
      (tag_of c = "Unknown" → l = [("manufacturer", "不明"), ("device", "不明")]) := by
  cases c with
  | Sirc command device =>
      exact ⟨by simp [tag_of], _, rfl, List.cons_ne_nil _ _, fun h => by simp [tag_of] at h⟩
  | PanasonicHvac t m sw sg f p ck =>
      exact ⟨by simp [tag_of], _, rfl, List.cons_ne_nil _ _, fun h => by simp [tag_of] at h⟩
  | DaikinHvac t m ot oth ft fth sw sg f ck =>
      exact ⟨by simp [tag_of], _, rfl, List.cons_ne_nil _ _, fun h => by simp [tag_of] at h⟩
  | HitachiHvac t m f sw =>
      exact ⟨by simp [tag_of], _, rfl, List.cons_ne_nil _ _, fun h => by simp [tag_of] at h⟩
  | MitsubishiElectricHvac t m sw ck =>
      exact ⟨by simp [tag_of], _, rfl, List.cons_ne_nil _ _, fun h => by simp [tag_of] at h⟩
  | Unknown frames =>
      exact ⟨by simp [tag_of], _, rfl, List.cons_ne_nil _ _, fun _ => rfl⟩

/-- Model of JavaScript `String.prototype.split(/\r?\n/)`: walk the
characters, cutting a line at each newline and also consuming a carriage
return immediately before it. -/
def js_split_lines_aux : List Char → List Char → List String
  | [], acc => [String.mk acc.reverse]
  | c :: rest, acc =>
      if c = '\n' then
        (match acc with
          | '\r' :: acc2 => String.mk acc2.reverse
          | _ => String.mk acc.reverse) :: js_split_lines_aux rest []
      else js_split_lines_aux rest (c :: acc)

/-- Source `SerialConnectionEffect.tsx`: `rxText.split(/\r?\n/)`. -/
def js_split_lines (s : String) : List String := js_split_lines_aux s.data []

/-- Source `SerialConnectionEffect.tsx`: `lines.slice(-2)[0]`, the first
element of the last two lines (`none` embeds JavaScript `undefined`). -/
def js_slice_neg2_head (lines : List String) : Option String :=
  (lines.drop (lines.length - 2)).head?

/-- Source `SerialConnectionEffect.tsx`, the `useEffect` on `rxText`: take
`lines.slice(-2)[0]`; when it is truthy and `JSON.parse` succeeds, append
the parsed record to the received-data list and clear the text buffer; when
it is falsy or parsing throws, leave both unchanged.  `JSON.parse` is a
platform builtin, embedded as the `parse` parameter returning `Option`. -/
def serial_rx_update {J : Type} (parse : String → Option J)
    (rxText : String) (rxJsonData : List J) : String × List J :=
  match js_slice_neg2_head (js_split_lines rxText) with
  | none => (rxText, rxJsonData)
  | some last =>
      if last = "" then (rxText, rxJsonData)
      else
        match parse last with
        | some rx_json => ("", rxJsonData ++ [rx_json])
        | none => (rxText, rxJsonData)

theorem js_split_lines_aux_length_pos :
    ∀ (cs : List Char) (acc : List Char), 1 ≤ (js_split_lines_aux cs acc).length := by
  intro cs
  induction cs with
  | nil => intro acc; simp [js_split_lines_aux]
  | cons c rest ih =>
      intro acc
      by_cases hc : c = '\n'
      · simp [js_split_lines_aux, hc]
      · simp only [js_split_lines_aux, if_neg hc]
        exact ih (c :: acc)

theorem js_split_lines_length_pos (s : String) : 1 ≤ (js_split_lines s).length :=
  js_split_lines_aux_length_pos s.data []

theorem js_slice_neg2_head_eq (lines : List String) (h : lines ≠ []) :
    js_slice_neg2_head lines = some (lines.getD (lines.length - 2) "") := by
  have hlt : lines.length - 2 < lines.length := by
    have := List.length_pos.mpr h
    omega
  rw [js_slice_neg2_head, List.head?_drop, List.getElem?_eq_getElem hlt,
    List.getD_eq_getElem lines "" hlt]

/-- Decimal digit value of a character, `none` for a non-digit. -/
def char_digit? (c : Char) : Option Nat :=
  if '0' ≤ c ∧ c ≤ '9' then some (c.toNat - '0'.toNat) else none

/-- Accumulate decimal digits most-significant first; `none` on any
non-digit character. -/
def parse_nat_aux (acc : Nat) : List Char → Option Nat
  | [] => some acc
  | c :: rest =>
      match char_digit? c with
      | some d => parse_nat_aux (10 * acc + d) rest
      | none => none

/-- Parse a string as an unsigned decimal integer; `none` on the empty
string or any non-digit character.  Used both as the numeric-token reading
of the modelled TimingParser and as a concrete instance of `JSON.parse` on
the bare-number records exercised by the counterexamples (JavaScript
`JSON.parse` accepts a bare number literal). -/
def parse_nat (s : String) : Option Nat :=
  if s.data = [] then none else parse_nat_aux 0 s.data

/-- C10 counterexample: the buffer `"7"` contains no newline, so its split
has exactly one line and there is no second-to-last line at all; yet the
update considers the sole line, ingests it (under a parse consistent with
`JSON.parse`, which accepts the bare number `7`) and clears the buffer,
refuting the claim that only the second-to-last line is ever considered. -/
theorem serial_rx_ingests_sole_line :
    (js_split_lines "7").length = 1 ∧
    serial_rx_update parse_nat "7" ([] : List Nat) = ("", [7]) := by
  constructor
  · rfl
  · rfl

/-- C10 (amended): the line considered for ingestion is the first of the
last two lines — the second-to-last line when the buffer splits into at
least two lines, and the sole line otherwise (the `getD (length - 2)` index
below is `length - 2` in the first case and `0` in the second).  When that
candidate is non-empty and parses as JSON the parsed record is appended to
the received-data list and the text buffer is cleared; when the candidate
is empty or parsing throws, both are left unchanged. -/
theorem serial_rx_second_to_last_policy {J : Type} (parse : String → Option J)
    (rxText : String) (rxJsonData : List J) :
    1 ≤ (js_split_lines rxText).length ∧
    js_slice_neg2_head (js_split_lines rxText) =
      some ((js_split_lines rxText).getD ((js_split_lines rxText).length - 2) "") ∧
    (∀ j, (js_split_lines rxText).getD ((js_split_lines rxText).length - 2) "" ≠ "" →
      parse ((js_split_lines rxText).getD ((js_split_lines rxText).length - 2) "") = some j →
      serial_rx_update parse rxText rxJsonData = ("", rxJsonData ++ [j])) ∧
    ((js_split_lines rxText).getD ((js_split_lines rxText).length - 2) "" = "" ∨
        parse ((js_split_lines rxText).getD ((js_split_lines rxText).length - 2) "") = none →
      serial_rx_update parse rxText rxJsonData = (rxText, rxJsonData)) := by
  have hpos : 1 ≤ (js_split_lines rxText).length := js_split_lines_length_pos rxText
  have hne : js_split_lines rxText ≠ [] := by
    intro e
    rw [e] at hpos
    simp at hpos
  have hhead := js_slice_neg2_head_eq (js_split_lines rxText) hne
  refine ⟨hpos, hhead, ?_, ?_⟩
  · intro j hcand hparse
    rw [serial_rx_update, hhead]
    simp only [if_neg hcand, hparse]
  · intro hcase
    rw [serial_rx_update, hhead]
    rcases hcase with hc | hc
    · simp only [if_pos hc]
    · simp only [hc]
      split
      · rfl
      · rfl

/-- Witness for the amended C10 at the concrete buffer `"12\n"` (two lines,
the second-to-last being `"12"`): the record parses and is ingested. -/
theorem serial_rx_second_to_last_policy_witness :
    ((js_split_lines "12\n").getD ((js_split_lines "12\n").length - 2) "" ≠ "" ∧
     parse_nat ((js_split_lines "12\n").getD ((js_split_lines "12\n").length - 2) "") = some 12) ∧
    serial_rx_update parse_nat "12\n" ([] : List Nat) = ("", [12]) :=
  ⟨⟨by decide, by decide⟩,
   (serial_rx_second_to_last_policy parse_nat "12\n" []).2.2.1 12
     (by decide) (by decide)⟩

/-- Modelled from the spec: the two hard-failure kinds of the TimingParser
(`wasm_parse_infrared_code`), whose Rust body is not part of the visible
sources. -/
inductive TimingParseError where
  | MalformedInput
  | OutOfRange
  deriving DecidableEq, Repr

/-- Modelled from the spec: the documented plausible upper bound on a single
mark or space duration (protocol pulses are sub-second), in microseconds. -/
def UPPER_BOUND_MICROS : Nat := 1000000

/-- Modelled from the spec: token delimiters of the input grammar
(delimiter-separated unsigned integers): comma and whitespace. -/
def is_delim (c : Char) : Bool :=
  c == ',' || c == ' ' || c == '\n' || c == '\r' || c == '\t'

/-- Split a character stream at delimiters, keeping the raw (possibly
empty) chunks. -/
def tokenize_aux : List Char → List Char → List (List Char)
  | [], acc => [acc.reverse]
  | c :: rest, acc =>
      if is_delim c then acc.reverse :: tokenize_aux rest []
      else tokenize_aux rest (c :: acc)

/-- The non-empty tokens of the input text. -/
def tokens_of (s : String) : List (List Char) :=
  (tokenize_aux s.data []).filter (fun t => !t.isEmpty)

/-- Modelled from the spec: pair the integer stream up alternating mark,
space, mark, space, ...; an odd count yields a final pair with an implied
zero trailing space. -/
def pair_up : List Nat → List MarkAndSpaceMicros
  | [] => []
  | [m] => [⟨m, 0⟩]
  | m :: sp :: rest => ⟨m, sp⟩ :: pair_up rest

/-- Modelled from the spec: the TimingParser `wasm_parse_infrared_code`
(Rust body not in the visible sources).  UTF-8 text of delimiter-separated
non-negative integers; `MalformedInput` on empty input or a non-numeric
token, `OutOfRange` on a duration exceeding the documented upper bound;
otherwise the alternating mark/space pair sequence. -/
def wasm_parse_infrared_code (text : String) :
    Except TimingParseError (List MarkAndSpaceMicros) :=
  if tokens_of text = [] then .error .MalformedInput
  else
    match (tokens_of text).mapM (fun t => parse_nat_aux 0 t) with
    | none => .error .MalformedInput
    | some ns =>
        if ns.any (fun n => UPPER_BOUND_MICROS < n) then .error .OutOfRange
        else .ok (pair_up ns)

/-- The decimal digit characters used by the rendering. -/
def digit_char : Nat → Char
  | 0 => '0'
  | 1 => '1'
  | 2 => '2'
  | 3 => '3'
  | 4 => '4'
  | 5 => '5'
  | 6 => '6'
  | 7 => '7'
  | 8 => '8'
  | 9 => '9'
  | _ => '?'

/-- Decimal rendering of a non-negative integer, most significant digit
first. -/
def render_nat (n : Nat) : String :=
  if n = 0 then "0" else ⟨(Nat.digits 10 n).reverse.map digit_char⟩

/-- Render a token list as comma-separated text. -/
def render_tokens : List String → String
  | [] => ""
  | [t] => t
  | t :: rest => t ++ "," ++ render_tokens rest

/-- Modelled from the spec: the reference rendering of a pair sequence as
alternating mark/space integers in comma-separated text (the round-trip
property's `render`). -/
def render_pairs (ps : List MarkAndSpaceMicros) : String :=
  render_tokens ((durations ps).map render_nat)

theorem char_digit_digit_char (d : Nat) (h : d < 10) :
    char_digit? (digit_char d) = some d := by
  interval_cases d <;> rfl

theorem is_delim_digit_char (d : Nat) (h : d < 10) :
    is_delim (digit_char d) = false := by
  interval_cases d <;> rfl

theorem parse_nat_aux_msb (ms : List Nat) (h : ∀ d ∈ ms, d < 10) :
    ∀ acc, parse_nat_aux acc (ms.map digit_char) =
      some (ms.foldl (fun a d => 10 * a + d) acc) := by
  induction ms with
  | nil => intro acc; rfl
  | cons d rest ih =>
      intro acc
      have hd : d < 10 := h d (List.mem_cons_self d rest)
      simp only [List.map_cons, parse_nat_aux, char_digit_digit_char d hd,
        List.foldl_cons]
      exact ih (fun x hx => h x (List.mem_cons_of_mem d hx)) (10 * acc + d)

theorem foldr_digits_eq_ofDigits (ds : List Nat) :
    ds.foldr (fun d a => 10 * a + d) 0 = Nat.ofDigits 10 ds := by
  induction ds with
  | nil => rfl
  | cons d rest ih =>
      simp only [List.foldr_cons, ih, Nat.ofDigits_cons]
      omega

theorem parse_render_nat (n : Nat) : parse_nat_aux 0 (render_nat n).data = some n := by
  by_cases hn : n = 0
  · subst hn
    rfl
  · rw [render_nat, if_neg hn]
    show parse_nat_aux 0 ((Nat.digits 10 n).reverse.map digit_char) = some n
    rw [parse_nat_aux_msb ((Nat.digits 10 n).reverse)
      (fun d hd => Nat.digits_lt_base (by omega) (List.mem_reverse.mp hd)) 0]
    rw [List.foldl_reverse]
    have : (Nat.digits 10 n).foldr (fun x y => 10 * y + x) 0 = Nat.ofDigits 10 (Nat.digits 10 n) :=
      foldr_digits_eq_ofDigits (Nat.digits 10 n)
    rw [this, Nat.ofDigits_digits]

theorem render_nat_ne_nil (n : Nat) : (render_nat n).data ≠ [] := by
  by_cases hn : n = 0
  · subst hn
    simp [render_nat]
  · rw [render_nat, if_neg hn]
    show (Nat.digits 10 n).reverse.map digit_char ≠ []
    simp [Nat.digits_ne_nil_iff_ne_zero.mpr hn]

theorem render_nat_no_delim (n : Nat) :
    ∀ c ∈ (render_nat n).data, is_delim c = false := by
  by_cases hn : n = 0
  · subst hn
    intro c hc
    simp [render_nat] at hc
    subst hc
    rfl
  · rw [render_nat, if_neg hn]
    intro c hc
    have hc2 : c ∈ (Nat.digits 10 n).reverse.map digit_char := hc
    rcases List.mem_map.mp hc2 with ⟨d, hd, rfl⟩
    exact is_delim_digit_char d (Nat.digits_lt_base (by omega) (List.mem_reverse.mp hd))

theorem tokenize_aux_no_delim (t : List Char) (h : ∀ c ∈ t, is_delim c = false) :
    ∀ rest acc, tokenize_aux (t ++ rest) acc = tokenize_aux rest (t.reverse ++ acc) := by
  induction t with
  | nil => intro rest acc; simp
  | cons c t2 ih =>
      intro rest acc
      have hc : is_delim c = false := h c (List.mem_cons_self c t2)
      simp only [List.cons_append, tokenize_aux, hc, Bool.false_eq_true, if_false,
        List.append_eq]
      rw [ih (fun x hx => h x (List.mem_cons_of_mem c hx)) rest (c :: acc)]
      simp [List.append_assoc]

theorem tokenize_aux_comma (rest : List Char) (acc : List Char) :
    tokenize_aux (',' :: rest) acc = acc.reverse :: tokenize_aux rest [] := by
  simp [tokenize_aux, is_delim]

theorem not_isEmpty_of_ne_nil {α : Type} (l : List α) (h : l ≠ []) :
    (!l.isEmpty) = true := by
  cases l with
  | nil => exact absurd rfl h
  | cons a t => rfl

theorem tokens_of_render_tokens (l : List String)
    (h : ∀ t ∈ l, t.data ≠ [] ∧ ∀ c ∈ t.data, is_delim c = false) :
    tokens_of (render_tokens l) = l.map String.data := by
  induction l with
  | nil => rfl
  | cons t rest ih =>
      cases rest with
      | nil =>
          have ht := h t (List.mem_cons_self t [])
          show tokens_of t = [t.data]
          rw [tokens_of]
          have : tokenize_aux t.data [] = [t.data] := by
            have := tokenize_aux_no_delim t.data ht.2 [] []
            rw [List.append_nil] at this
            rw [this]
            simp [tokenize_aux]
          rw [this, List.filter_cons, if_pos (not_isEmpty_of_ne_nil t.data ht.1)]
          rfl
      | cons u rest2 =>
          have ht := h t (List.mem_cons_self t (u :: rest2))
          have hdata : (render_tokens (t :: u :: rest2)).data =
              t.data ++ (',' :: (render_tokens (u :: rest2)).data) := by
            show (t ++ "," ++ render_tokens (u :: rest2)).data =
              t.data ++ (',' :: (render_tokens (u :: rest2)).data)
            rw [String.data_append, String.data_append]
            simp
          rw [tokens_of, hdata,
            tokenize_aux_no_delim t.data ht.2 (',' :: (render_tokens (u :: rest2)).data) [],
            List.append_nil, tokenize_aux_comma, List.reverse_reverse]
          have ihr := ih (fun x hx => h x (List.mem_cons_of_mem t hx))
          rw [tokens_of] at ihr
          rw [List.filter_cons, if_pos (not_isEmpty_of_ne_nil t.data ht.1), ihr]
          rfl

theorem mapM_parse_render (ns : List Nat) :
    ((ns.map (fun n => (render_nat n).data)).mapM (fun t => parse_nat_aux 0 t)) =
      some ns := by
  induction ns with
  | nil => rfl
  | cons n rest ih =>
      simp only [List.map_cons, List.mapM_cons, parse_render_nat n, ih,
        Option.bind_eq_bind, Option.some_bind]
      rfl

theorem pair_up_durations (ps : List MarkAndSpaceMicros) :
    pair_up (durations ps) = ps := by
  induction ps with
  | nil => rfl
  | cons p rest ih =>
      rw [durations_cons]
      show (⟨p.mark, p.space⟩ : MarkAndSpaceMicros) :: pair_up (durations rest) =
        p :: rest
      rw [ih]

theorem durations_bounded (ps : List MarkAndSpaceMicros)
    (h : ∀ p ∈ ps, p.mark ≤ UPPER_BOUND_MICROS ∧ p.space ≤ UPPER_BOUND_MICROS) :
    ∀ n ∈ durations ps, n ≤ UPPER_BOUND_MICROS := by
  induction ps with
  | nil => simp [durations]
  | cons p rest ih =>
      intro n hn
      rw [durations_cons] at hn
      have hp := h p (List.mem_cons_self p rest)
      rcases List.mem_cons.mp hn with rfl | hn2
      · exact hp.1
      · rcases List.mem_cons.mp hn2 with rfl | hn3
        · exact hp.2
        · exact ih (fun q hq => h q (List.mem_cons_of_mem p hq)) n hn3

/-- C5 counterexample (spec-modelled): the empty pair sequence renders to
empty text, which the TimingParser rejects with `MalformedInput` (the
specification makes empty input a hard failure), so the round-trip does not
return the original (empty) sequence. -/
theorem timing_roundtrip_fails_on_empty :
    wasm_parse_infrared_code (render_pairs []) ≠
      Except.ok ([] : List MarkAndSpaceMicros) ∧
    wasm_parse_infrared_code (render_pairs []) =
      Except.error TimingParseError.MalformedInput := by
  have h2 : wasm_parse_infrared_code (render_pairs []) =
      Except.error TimingParseError.MalformedInput := rfl
  refine ⟨?_, h2⟩
  intro h
  rw [h2] at h
  exact Except.noConfusion h

/-- C5 (amended, spec-modelled): for every non-empty sequence of mark/space
pairs all of whose durations lie within the documented upper bound,
parsing the rendered text returns exactly the original pair sequence.  The
empty sequence is excluded because its rendering is empty input, a
documented `MalformedInput` failure; out-of-bound durations are excluded
because the parser rejects them with `OutOfRange`. -/
theorem timing_parse_render_roundtrip (ps : List MarkAndSpaceMicros)
    (hne : ps ≠ [])
    (hbound : ∀ p ∈ ps, p.mark ≤ UPPER_BOUND_MICROS ∧ p.space ≤ UPPER_BOUND_MICROS) :
    wasm_parse_infrared_code (render_pairs ps) = Except.ok ps := by
  have htoks : tokens_of (render_pairs ps) =
      ((durations ps).map render_nat).map String.data := by
    rw [render_pairs]
    apply tokens_of_render_tokens
    intro t ht
    rcases List.mem_map.mp ht with ⟨n, _, rfl⟩
    exact ⟨render_nat_ne_nil n, render_nat_no_delim n⟩
  have htoks2 : tokens_of (render_pairs ps) =
      (durations ps).map (fun n => (render_nat n).data) := by
    rw [htoks, List.map_map]
    rfl
  have hdne : durations ps ≠ [] := by
    cases ps with
    | nil => exact absurd rfl hne
    | cons p rest => rw [durations_cons]; simp
  have htne : tokens_of (render_pairs ps) ≠ [] := by
    rw [htoks2]
    simp [hdne]
  have hany : (durations ps).any (fun n => UPPER_BOUND_MICROS < n) = false := by
    rw [List.any_eq_false]
    intro n hn
    simp only [decide_eq_true_eq, not_lt]
    exact durations_bounded ps hbound n hn
  rw [wasm_parse_infrared_code, if_neg htne, htoks2]
  simp only [mapM_parse_render, hany, Bool.false_eq_true, if_false, pair_up_durations]

/-- Witness for the amended C5 at the concrete sequence `[⟨100, 200⟩]`. -/
theorem timing_parse_render_roundtrip_witness :
    (([⟨100, 200⟩] : List MarkAndSpaceMicros) ≠ []) ∧
    wasm_parse_infrared_code (render_pairs [⟨100, 200⟩]) =
      Except.ok ([⟨100, 200⟩] : List MarkAndSpaceMicros) :=
  ⟨by decide, timing_parse_render_roundtrip [⟨100, 200⟩] (by decide) (by decide)⟩

/-- Source `types.ts`: the demodulated frame `InfraredRemoteDemodulatedFrame`,
a protocol-tagged bitstream or the raw pairs for an unrecognized frame. -/
inductive InfraredRemoteDemodulatedFrame where
  | Aeha (bitstream : List Nat)
  | Nec (bitstream : List Nat)
  | Sirc (bitstream : List Nat)
  | Unknown (frame : List MarkAndSpaceMicros)
  deriving DecidableEq, Repr

/-- Source `App.tsx`: the component state carrying the five pipeline-stage
results, the input text and the alert. -/
structure AppState where
  msb_first : Bool
  ir_mark_and_spaces : List MarkAndSpaceMicros
  ir_splitted_frames : List (List MarkAndSpaceMicros)
  ir_demodulated_frames : List InfraredRemoteDemodulatedFrame
  ir_decoded_frames : List InfraredRemoteDecordedFrame
  ir_control_codes : List InfraredRemoteControlCode
  input_text : String
  alert_type : String
  alert_message : String
  deriving DecidableEq, Repr

/-- Source `App.tsx`: `initState`. -/
def initState : AppState :=
  { msb_first := false, ir_mark_and_spaces := [], ir_splitted_frames := [],
    ir_demodulated_frames := [], ir_decoded_frames := [], ir_control_codes := [],
    input_text := "", alert_type := "info", alert_message := "入力してね。" }

/-- Source `App.tsx`: the `useEffect` on `input_text`.  Empty input resets
the whole state; a successful parse stores the pairs; a thrown parse error
sets only the alert, leaving `ir_mark_and_spaces` (and hence everything
derived from it) unchanged. -/
def app_effect_parse (parse : String → Except String (List MarkAndSpaceMicros))
    (s : AppState) : AppState :=
  if s.input_text.length = 0 then initState
  else
    match parse s.input_text with
    | .ok mas =>
        { s with ir_mark_and_spaces := mas, alert_type := "success", alert_message := "いいですね。" }
    | .error msg => { s with alert_type := "error", alert_message := msg }

/-- Source `App.tsx`: the `useEffect` on `ir_mark_and_spaces`
(`wasm_decode_phase1`); on error this effect clears its output. -/
def app_effect_phase1
    (phase1 : List MarkAndSpaceMicros → Except String (List (List MarkAndSpaceMicros)))
    (s : AppState) : AppState :=
  if s.ir_mark_and_spaces = [] then { s with ir_splitted_frames := [] }
  else
    match phase1 s.ir_mark_and_spaces with
    | .ok fs =>
        { s with ir_splitted_frames := fs, alert_type := "success", alert_message := "いいですね。" }
    | .error msg =>
        { s with ir_splitted_frames := [], alert_type := "error", alert_message := msg }

/-- Source `App.tsx`: the `useEffect` on `ir_splitted_frames`
(`map wasm_decode_phase2`, a thrown error aborting the whole map); on error
this effect clears its output. -/
def app_effect_phase2
    (phase2 : List MarkAndSpaceMicros → Except String InfraredRemoteDemodulatedFrame)
    (s : AppState) : AppState :=
  if s.ir_splitted_frames = [] then { s with ir_demodulated_frames := [] }
  else
    match s.ir_splitted_frames.mapM phase2 with
    | .ok ds =>
        { s with ir_demodulated_frames := ds, alert_type := "success", alert_message := "いいですね。" }
    | .error msg =>
        { s with ir_demodulated_frames := [], alert_type := "error", alert_message := msg }

/-- Source `App.tsx`: the `useEffect` on `ir_demodulated_frames`
(`map wasm_decode_phase3`); on error this effect clears its output. -/
def app_effect_phase3
    (phase3 : InfraredRemoteDemodulatedFrame → Except String InfraredRemoteDecordedFrame)
    (s : AppState) : AppState :=
  if s.ir_demodulated_frames = [] then { s with ir_decoded_frames := [] }
  else
    match s.ir_demodulated_frames.mapM phase3 with
    | .ok ds =>
        { s with ir_decoded_frames := ds, alert_type := "success", alert_message := "いいですね。" }
    | .error msg =>
        { s with ir_decoded_frames := [], alert_type := "error", alert_message := msg }

/-- Source `App.tsx`: the `useEffect` on `ir_decoded_frames`
(`wasm_decode_phase4`); on error this effect clears its output. -/
def app_effect_phase4
    (phase4 : List InfraredRemoteDecordedFrame → Except String (List InfraredRemoteControlCode))
    (s : AppState) : AppState :=
  if s.ir_decoded_frames = [] then { s with ir_control_codes := [] }
  else
    match phase4 s.ir_decoded_frames with
    | .ok cs =>
        { s with ir_control_codes := cs, alert_type := "success", alert_message := "いいですね。" }
    | .error msg =>
        { s with ir_control_codes := [], alert_type := "error", alert_message := msg }

/-- Source `App.tsx`: one full invocation of the pipeline on new input text.
`handleParse` resets and immediately overwrites the reset with the
stale-closure spread `\x7b ...state, input_text \x7d`, so the prior derived
fields survive into the new run; the five `useEffect`s then fire in
dependency order.  Because the dependencies flow strictly forward, one pass
of the five effects reaches the quiescent state React converges to. -/
def app_run (parse : String → Except String (List MarkAndSpaceMicros))
    (phase1 : List MarkAndSpaceMicros → Except String (List (List MarkAndSpaceMicros)))
    (phase2 : List MarkAndSpaceMicros → Except String InfraredRemoteDemodulatedFrame)
    (phase3 : InfraredRemoteDemodulatedFrame → Except String InfraredRemoteDecordedFrame)
    (phase4 : List InfraredRemoteDecordedFrame → Except String (List InfraredRemoteControlCode))
    (s : AppState) (t : String) : AppState :=
  app_effect_phase4 phase4 (app_effect_phase3 phase3 (app_effect_phase2 phase2
    (app_effect_phase1 phase1 (app_effect_parse parse { s with input_text := t }))))

/-- Modelled from the spec: the TimingParser wrapped with the thrown error
messages App catches (the Rust `wasm_parse_infrared_code` body is not in the
visible sources). -/
def demo_parse (t : String) : Except String (List MarkAndSpaceMicros) :=
  match wasm_parse_infrared_code t with
  | .ok ps => .ok ps
  | .error .MalformedInput => .error "MalformedInput"
  | .error .OutOfRange => .error "OutOfRange"

/-- Modelled from the spec: the protocol-agnostic long-gap threshold of the
FrameSplitter, in microseconds (a tunable constant; the spec leaves the
exact value open, a 10 ms gap must split). -/
def LONG_GAP_THRESHOLD : Nat := 8000

/-- Modelled from the spec: the FrameSplitter loop, closing a frame when a
pair's space exceeds the long-gap threshold and emitting the trailing
partial frame. -/
def frame_split_aux : List MarkAndSpaceMicros → List MarkAndSpaceMicros →
    List (List MarkAndSpaceMicros)
  | [], acc => if acc.isEmpty then [] else [acc.reverse]
  | p :: rest, acc =>
      if LONG_GAP_THRESHOLD < p.space then (p :: acc).reverse :: frame_split_aux rest []
      else frame_split_aux rest (p :: acc)

/-- Modelled from the spec: `wasm_decode_phase1`, the FrameSplitter (total;
never throws). -/
def wasm_decode_phase1_model (mas : List MarkAndSpaceMicros) :
    Except String (List (List MarkAndSpaceMicros)) :=
  .ok (frame_split_aux mas [])

/-- Modelled from the spec: a concrete instance of the total Demodulator
exercising its specified fallback path — a frame matching no leader window
demodulates to `Unknown` carrying the original frame (the exact leader
windows are an open question in the spec). -/
def demo_phase2 (f : List MarkAndSpaceMicros) :
    Except String InfraredRemoteDemodulatedFrame :=
  .ok (.Unknown f)

/-- Modelled from the spec: a concrete instance of the total FrameDecoder
on the path the fallback Demodulator produces — an `Unknown` demodulated
frame decodes to `Unknown` carrying the original frame for diagnostics. -/
def demo_phase3 (d : InfraredRemoteDemodulatedFrame) :
    Except String InfraredRemoteDecordedFrame :=
  match d with
  | .Unknown f => .ok (.Unknown f)
  | .Aeha _ => .ok (.Unknown [])
  | .Nec _ => .ok (.Unknown [])
  | .Sirc _ => .ok (.Unknown [])

/-- Modelled from the spec: the ControlCodeInterpreter on `Unknown` decoded
frames — one input frame yields one `ControlCode.Unknown` carrying the
original frame, order preserved. -/
def demo_phase4 (ds : List InfraredRemoteDecordedFrame) :
    Except String (List InfraredRemoteControlCode) :=
  .ok (ds.map (fun d => .Unknown [d]))

/-- C6 (code bug): the pipeline as composed in App is not stateless across
invocations.  After a successful run on the valid capture `"100,200"`,
re-invoking on the malformed input `"abc"` (a documented `MalformedInput`
failure) leaves the previous run's non-empty ControlCode sequence in place,
because the parse effect's error branch does not clear
`ir_mark_and_spaces` (every later effect clears its own output on error);
a fresh run on the same input `"abc"` yields the empty sequence, so
identical input produces different ControlCode sequences depending on
prior state. -/
theorem app_pipeline_retains_stale_codes_on_parse_error :
    (app_run demo_parse wasm_decode_phase1_model demo_phase2 demo_phase3 demo_phase4
        (app_run demo_parse wasm_decode_phase1_model demo_phase2 demo_phase3 demo_phase4
          initState "100,200") "abc").ir_control_codes =
      [.Unknown [.Unknown [⟨100, 200⟩]]] ∧
    (app_run demo_parse wasm_decode_phase1_model demo_phase2 demo_phase3 demo_phase4
        initState "100,200").ir_control_codes = [.Unknown [.Unknown [⟨100, 200⟩]]] ∧
    (app_run demo_parse wasm_decode_phase1_model demo_phase2 demo_phase3 demo_phase4
        initState "abc").ir_control_codes = [] := by
  refine ⟨?_, ?_, ?_⟩ <;> rfl
